import Mathlib

/-!
Verification of the Learning-Sys enrollment/progress workflow and frontend
API client. The repository's `src/` tree contains only the frontend API
client (`src/frontend/src/lib/api.js`); the backend enrollment workflow,
progress tracker and certificate issuer described by the specification are
not present under `src/`, so those components are modelled from the
specification text and the claims are settled against that model.
-/

namespace LearningSys

/-- Lifecycle states of an enrollment ledger entry:
`pending → active → completed`. -/
inductive EStatus where
  | pending
  | active
  | completed
deriving DecidableEq, Repr

/-- Payment lifecycle: created pending, verified by the (mock) gateway,
finalized on enrollment activation. -/
inductive PStatus where
  | pending
  | verified
  | finalized
deriving DecidableEq, Repr

/-- Error taxonomy of the spec (section 7). -/
inductive Err where
  | notFound
  | invalidState
  | paymentUnverified
  | validationError
deriving DecidableEq, Repr

/-- Modelled from the spec: a course record of the catalog store —
an ordered lesson list (by lesson id) and a price. -/
structure Course where
  lessons : List Nat
  price : Nat
deriving DecidableEq, Repr

/-- Modelled from the spec: an enrollment ledger entry — course reference,
lifecycle status, completed-lesson references and completion percentage,
keyed by an entry id. -/
structure Entry where
  id : Nat
  user : Nat
  course : Nat
  status : EStatus
  completed : List Nat
  percentage : Nat
deriving DecidableEq, Repr

/-- Modelled from the spec: a Payment record — user/course/amount/status. -/
structure Payment where
  id : Nat
  user : Nat
  course : Nat
  amount : Nat
  status : PStatus
deriving DecidableEq, Repr

/-- Modelled from the spec: a certificate artifact, derived deterministically
from user, course and completion date, never persisted. -/
structure Certificate where
  user : Nat
  course : Nat
  date : Nat
deriving DecidableEq, Repr

/-- Modelled from the spec: the persistent state — course catalog,
enrollment ledger, payment records, plus the audit side channel. -/
structure State where
  courses : List (Nat × Course)
  ledger : List Entry
  payments : List Payment
  audit : List Nat
deriving DecidableEq, Repr

/-- Look up a course by id in the catalog. -/
def lookupCourse : List (Nat × Course) → Nat → Option Course
  | [], _ => none
  | p :: rest, cid => if p.1 = cid then some p.2 else lookupCourse rest cid

/-- Look up a ledger entry by entry id. -/
def findEntry : List Entry → Nat → Option Entry
  | [], _ => none
  | e :: rest, eid => if e.id = eid then some e else findEntry rest eid

/-- Look up the ledger entry of a given user and course (first match). -/
def findEntryUC : List Entry → Nat → Nat → Option Entry
  | [], _, _ => none
  | e :: rest, u, c =>
      if e.user = u ∧ e.course = c then some e else findEntryUC rest u c

/-- Look up a payment record by id. -/
def findPayment : List Payment → Nat → Option Payment
  | [], _ => none
  | p :: rest, pid => if p.id = pid then some p else findPayment rest pid

/-- Completion percentage: completed-lesson count over total lessons. -/
def pct (count total : Nat) : Nat := 100 * count / total

/-- Modelled from the spec: best-effort audit logging. A failing side
channel (`logFails = true`) is swallowed: the log write is simply
dropped and no error is ever produced. -/
def tryLog (logFails : Bool) (msg : Nat) (s : State) : State :=
  if logFails then s else { s with audit := msg :: s.audit }

/-- Modelled from the spec: `createEnrollment(userId, courseId)` — fails if
the course is unknown or the user already has an active enrollment for it;
otherwise computes the price from the course record, inserts one pending
ledger entry, creates one pending Payment and returns its id as the payment
handle. `insertPending` is the successful branch: the single ledger write
plus the payment-handle creation. -/
def insertPending (logFails : Bool) (s : State) (u c : Nat) (course : Course) :
    State × Nat :=
  let eid := s.ledger.length
  let pid := s.payments.length
  let entry : Entry := ⟨eid, u, c, .pending, [], 0⟩
  let pay : Payment := ⟨pid, u, c, course.price, .pending⟩
  (tryLog logFails 1
    { s with ledger := s.ledger ++ [entry],
             payments := s.payments ++ [pay] }, pid)

def createEnrollment (logFails : Bool) (s : State) (u c : Nat) :
    Except Err (State × Nat) :=
  match lookupCourse s.courses c with
  | none => .error .notFound
  | some course =>
      match findEntryUC s.ledger u c with
      | some e =>
          if e.status = .active then .error .invalidState
          else .ok (insertPending logFails s u c course)
      | none => .ok (insertPending logFails s u c course)

/-- Modelled from the spec: mock gateway confirmation — marks a pending
payment as verified. -/
def verifyPayment (logFails : Bool) (s : State) (pid : Nat) :
    Except Err State :=
  match findPayment s.payments pid with
  | none => .error .notFound
  | some p =>
      if p.status = .pending then
        .ok (tryLog logFails 2
          { s with payments := s.payments.map fun q =>
              if q.id = pid then { q with status := .verified } else q })
      else .error .invalidState

/-- Modelled from the spec: `activateEnrollment(enrollmentId, paymentId)` —
fails if the entry is not pending (idempotency: re-activation is rejected)
or the payment is unverified; transitions the entry pending → active and
finalizes the one Payment record. -/
def activateEnrollment (logFails : Bool) (s : State) (eid pid : Nat) :
    Except Err State :=
  match findEntry s.ledger eid with
  | none => .error .notFound
  | some e =>
      match findPayment s.payments pid with
      | none => .error .notFound
      | some p =>
          if e.status ≠ .pending then .error .invalidState
          else if p.status ≠ .verified then .error .paymentUnverified
          else
            .ok (tryLog logFails 3
              { s with
                  ledger := s.ledger.map fun e2 =>
                    if e2.id = eid then { e2 with status := .active } else e2,
                  payments := s.payments.map fun q =>
                    if q.id = pid then { q with status := .finalized } else q })

/-- The row update applied by `completeLesson`: append the lesson id to the
completed set, recompute percentage = completed/total, and flip the entry to
completed when the percentage reaches 100. -/
def completeUpdate (total l : Nat) (e : Entry) : Entry :=
  { e with completed := e.completed ++ [l],
           percentage := pct (e.completed ++ [l]).length total,
           status :=
             if pct (e.completed ++ [l]).length total = 100 then .completed
             else e.status }

/-- Modelled from the spec: `completeLesson(userId, courseId, lessonId)` —
fails if the lesson is not in the course or no enrollment exists; completing
an already-completed lesson is an idempotent no-op; otherwise (entry must be
active) appends the lesson id to the completed set, recomputes
percentage = completed/total and flips the entry to completed at 100%. -/
def completeLesson (logFails : Bool) (s : State) (u c l : Nat) :
    Except Err State :=
  match lookupCourse s.courses c with
  | none => .error .notFound
  | some course =>
      if l ∈ course.lessons then
        match findEntryUC s.ledger u c with
        | none => .error .notFound
        | some e =>
            if l ∈ e.completed then .ok s
            else if e.status ≠ .active then .error .invalidState
            else
              .ok (tryLog logFails 4
                { s with ledger := s.ledger.map fun e2 =>
                    if e2.id = e.id then
                      completeUpdate course.lessons.length l e2
                    else e2 })
      else .error .notFound

/-- Modelled from the spec: `issueCertificate(userId, courseId)` with the
completion date — fails unless the enrollment is completed; returns the
artifact derived from (user, course, date) only, persisting nothing. -/
def issueCertificate (logFails : Bool) (s : State) (u c d : Nat) :
    Except Err (Certificate × State) :=
  match findEntryUC s.ledger u c with
  | none => .error .notFound
  | some e =>
      if e.status = .completed then
        .ok (⟨u, c, d⟩, tryLog logFails 5 s)
      else .error .invalidState

/-- The primary operations of the workflow, as a syntax of requests. -/
inductive Op where
  | create (u c : Nat)
  | verifyPay (pid : Nat)
  | activate (eid pid : Nat)
  | complete (u c l : Nat)
  | issueCert (u c d : Nat)
deriving DecidableEq, Repr

/-- Run one operation, returning the successor state or the error. -/
def runE (logFails : Bool) (o : Op) (s : State) : Except Err State :=
  match o with
  | .create u c => (createEnrollment logFails s u c).map Prod.fst
  | .verifyPay pid => verifyPayment logFails s pid
  | .activate eid pid => activateEnrollment logFails s eid pid
  | .complete u c l => completeLesson logFails s u c l
  | .issueCert u c d => (issueCertificate logFails s u c d).map Prod.snd

/-- Run one operation; a rejected operation leaves the state unchanged. -/
def run (logFails : Bool) (o : Op) (s : State) : State :=
  match runE logFails o s with
  | .ok s2 => s2
  | .error _ => s

/-- State with the audit side channel erased, for comparing core effects. -/
def stripAudit (s : State) : State := { s with audit := [] }

/-- Well-formedness of one ledger entry against the catalog: its course
exists, its completed set is duplicate-free and drawn from the course's
lessons, and its stored percentage is the derived one. -/
def entryWF (cs : List (Nat × Course)) (e : Entry) : Prop :=
  match lookupCourse cs e.course with
  | none => False
  | some co =>
      e.completed.Nodup ∧ (∀ l ∈ e.completed, l ∈ co.lessons) ∧
        e.percentage = pct e.completed.length co.lessons.length

instance entryWF.dec (cs : List (Nat × Course)) (e : Entry) :
    Decidable (entryWF cs e) := by
  unfold entryWF
  cases lookupCourse cs e.course
  · exact isFalse fun h => h
  · exact inferInstanceAs (Decidable (_ ∧ _))

/-- The ledger invariant: every entry is well-formed, entry ids are below
the ledger length (so the appended fresh id is really fresh) and pairwise
distinct. -/
def Inv (s : State) : Prop :=
  (∀ e ∈ s.ledger, entryWF s.courses e) ∧
  (∀ e ∈ s.ledger, e.id < s.ledger.length) ∧
  (s.ledger.map Entry.id).Nodup

instance Inv.dec (s : State) : Decidable (Inv s) := by
  unfold Inv
  exact inferInstanceAs (Decidable (_ ∧ _ ∧ _))

/-- The allowed moves of the enrollment state machine: stay put,
pending → active on payment confirmation, active → completed when all
lessons are complete. -/
def StatusStep (a b : EStatus) : Prop :=
  a = b ∨ (a = .pending ∧ b = .active) ∨ (a = .active ∧ b = .completed)

instance StatusStep.dec (a b : EStatus) : Decidable (StatusStep a b) := by
  unfold StatusStep
  exact inferInstanceAs (Decidable (_ ∨ _))

/-- Demo catalog: one course with four lessons (the spec's scenario). -/
def demoState : State :=
  { courses := [(1, ⟨[1, 2, 3, 4], 500⟩)], ledger := [], payments := [],
    audit := [] }

/-- Replay a list of operations from a state (logging succeeding). -/
def replay (os : List Op) (s : State) : State :=
  os.foldl (fun t o => run false o t) s

/-- The spec scenario up to activation: enroll, verify payment, activate. -/
def demoActive : State :=
  replay [.create 7 1, .verifyPay 0, .activate 0 0] demoState

/-- The spec scenario after completing lessons 1, 2, 3. -/
def demo75 : State :=
  replay [.complete 7 1 1, .complete 7 1 2, .complete 7 1 3] demoActive

/-- The spec scenario after completing all four lessons. -/
def demo100 : State := replay [.complete 7 1 4] demo75

end LearningSys

namespace ApiClient

/-- Embedded from `src/frontend/src/lib/api.js`:
`export const API_BASE = import.meta.env.VITE_API_BASE_URL || '';`
The environment variable is a string or absent; `||` selects the left
operand when it is truthy (a nonempty string) and `''` otherwise. -/
def API_BASE (viteApiBaseUrl : Option String) : String :=
  match viteApiBaseUrl with
  | some v => if v = "" then "" else v
  | none => ""

/-- The request configuration of an axios instance, as far as the client
sets it. -/
structure AxiosConfig where
  baseURL : String
  contentTypeHeader : String
  withCredentials : Bool
deriving DecidableEq, Repr

/-- Embedded from `src/frontend/src/lib/api.js`: the exported axios
instance, created with `baseURL: API_BASE`, a `Content-Type:
application/json` header, and `withCredentials: true`. -/
def api (viteApiBaseUrl : Option String) : AxiosConfig :=
  { baseURL := API_BASE viteApiBaseUrl,
    contentTypeHeader := "application/json",
    withCredentials := true }

end ApiClient

namespace LearningSys

@[simp]
theorem tryLog_courses (lf : Bool) (m : Nat) (s : State) :
    (tryLog lf m s).courses = s.courses := by
  unfold tryLog; split <;> rfl

@[simp]
theorem tryLog_ledger (lf : Bool) (m : Nat) (s : State) :
    (tryLog lf m s).ledger = s.ledger := by
  unfold tryLog; split <;> rfl

@[simp]
theorem tryLog_payments (lf : Bool) (m : Nat) (s : State) :
    (tryLog lf m s).payments = s.payments := by
  unfold tryLog; split <;> rfl

@[simp]
theorem stripAudit_tryLog (lf : Bool) (m : Nat) (s : State) :
    stripAudit (tryLog lf m s) = stripAudit s := by
  unfold tryLog stripAudit; split <;> rfl

theorem findEntryUC_mem {es : List Entry} {u c : Nat} {e : Entry}
    (h : findEntryUC es u c = some e) : e ∈ es ∧ e.user = u ∧ e.course = c := by
  induction es with
  | nil => simp [findEntryUC] at h
  | cons a rest ih =>
      unfold findEntryUC at h
      split at h
      · cases h
        exact ⟨List.mem_cons_self _ _, by assumption⟩
      · rcases ih h with ⟨hm, hu, hc⟩
        exact ⟨List.mem_cons_of_mem _ hm, hu, hc⟩

theorem findEntry_mem {es : List Entry} {eid : Nat} {e : Entry}
    (h : findEntry es eid = some e) : e ∈ es ∧ e.id = eid := by
  induction es with
  | nil => simp [findEntry] at h
  | cons a rest ih =>
      unfold findEntry at h
      split at h
      · cases h
        exact ⟨List.mem_cons_self _ _, by assumption⟩
      · rcases ih h with ⟨hm, hi⟩
        exact ⟨List.mem_cons_of_mem _ hm, hi⟩

theorem id_inj {es : List Entry} (hnd : (es.map Entry.id).Nodup)
    {a b : Entry} (ha : a ∈ es) (hb : b ∈ es) (hid : a.id = b.id) : a = b := by
  induction es with
  | nil => cases ha
  | cons x rest ih =>
      rw [List.map_cons, List.nodup_cons] at hnd
      rcases List.mem_cons.mp ha with rfl | ha2
      · rcases List.mem_cons.mp hb with rfl | hb2
        · rfl
        · exact absurd (hid ▸ List.mem_map_of_mem Entry.id hb2) hnd.1
      · rcases List.mem_cons.mp hb with rfl | hb2
        · exact absurd (hid ▸ List.mem_map_of_mem Entry.id ha2) hnd.1
        · exact ih hnd.2 ha2 hb2

theorem pct_mono {a b : Nat} (total : Nat) (h : a ≤ b) :
    pct a total ≤ pct b total :=
  Nat.div_le_div_right (Nat.mul_le_mul_left 100 h)

theorem pct_le_100 {count total : Nat} (h : count ≤ total) :
    pct count total ≤ 100 := by
  cases total with
  | zero => simp [pct]
  | succ t =>
      calc 100 * count / (t + 1) ≤ 100 * (t + 1) / (t + 1) :=
            Nat.div_le_div_right (Nat.mul_le_mul_left 100 h)
        _ = 100 := Nat.mul_div_cancel 100 (Nat.succ_pos t)

theorem length_le_of_nodup_subset {l l2 : List Nat} (hnd : l.Nodup)
    (hsub : ∀ x ∈ l, x ∈ l2) : l.length ≤ l2.length := by
  calc l.length = l.toFinset.card := (List.toFinset_card_of_nodup hnd).symm
    _ ≤ l2.toFinset.card := Finset.card_le_card fun x hx => by
          rw [List.mem_toFinset] at hx ⊢; exact hsub x hx
    _ ≤ l2.length := l2.toFinset_card_le

theorem entryWF_iff (cs : List (Nat × Course)) (e : Entry) :
    entryWF cs e ↔ ∃ co, lookupCourse cs e.course = some co ∧
      e.completed.Nodup ∧ (∀ l ∈ e.completed, l ∈ co.lessons) ∧
      e.percentage = pct e.completed.length co.lessons.length := by
  unfold entryWF
  cases h : lookupCourse cs e.course with
  | none => simp
  | some co => simp

theorem entryWF_pct_le_100 {cs : List (Nat × Course)} {e : Entry}
    (h : entryWF cs e) : e.percentage ≤ 100 := by
  rcases (entryWF_iff cs e).mp h with ⟨co, _, hnd, hsub, hp⟩
  rw [hp]
  exact pct_le_100 (length_le_of_nodup_subset hnd hsub)

theorem entryWF_congr {cs : List (Nat × Course)} {e e2 : Entry}
    (hc : e2.course = e.course) (hl : e2.completed = e.completed)
    (hp : e2.percentage = e.percentage) : entryWF cs e2 ↔ entryWF cs e := by
  rw [entryWF_iff, entryWF_iff, hc, hl, hp]

theorem createEnrollment_ok {lf : Bool} {s : State} {u c : Nat} {s2 : State}
    {pid : Nat} (h : createEnrollment lf s u c = .ok (s2, pid)) :
    ∃ course, lookupCourse s.courses c = some course ∧
      s2.courses = s.courses ∧
      s2.ledger = s.ledger ++ [⟨s.ledger.length, u, c, .pending, [], 0⟩] ∧
      s2.payments =
        s.payments ++ [⟨s.payments.length, u, c, course.price, .pending⟩] ∧
      pid = s.payments.length := by
  unfold createEnrollment at h
  split at h
  · simp at h
  · rename_i course hco
    refine ⟨course, hco, ?_⟩
    split at h
    · split at h
      · simp at h
      · simp only [insertPending, Except.ok.injEq, Prod.mk.injEq] at h
        obtain ⟨hs2, hpid⟩ := h
        subst hs2; subst hpid
        exact ⟨by simp, by simp, by simp, rfl⟩
    · simp only [insertPending, Except.ok.injEq, Prod.mk.injEq] at h
      obtain ⟨hs2, hpid⟩ := h
      subst hs2; subst hpid
      exact ⟨by simp, by simp, by simp, rfl⟩

theorem verifyPayment_ok {lf : Bool} {s s2 : State} {pid : Nat}
    (h : verifyPayment lf s pid = .ok s2) :
    s2.courses = s.courses ∧ s2.ledger = s.ledger := by
  unfold verifyPayment at h
  split at h
  · simp at h
  · split at h
    · simp only [Except.ok.injEq] at h
      subst h
      exact ⟨by simp, by simp⟩
    · simp at h

theorem activateEnrollment_ok {lf : Bool} {s s2 : State} {eid pid : Nat}
    (h : activateEnrollment lf s eid pid = .ok s2) :
    ∃ e p, findEntry s.ledger eid = some e ∧
      findPayment s.payments pid = some p ∧
      e.status = .pending ∧ p.status = .verified ∧
      s2.courses = s.courses ∧
      s2.ledger = s.ledger.map (fun e2 =>
        if e2.id = eid then { e2 with status := .active } else e2) ∧
      s2.payments = s.payments.map (fun q =>
        if q.id = pid then { q with status := .finalized } else q) := by
  unfold activateEnrollment at h
  split at h
  · simp at h
  · rename_i e he
    split at h
    · simp at h
    · rename_i p hp
      split at h
      · simp at h
      · split at h
        · simp at h
        · rename_i hes hps
          rw [Decidable.not_not] at hes hps
          simp only [Except.ok.injEq] at h
          subst h
          exact ⟨e, p, he, hp, hes, hps, by simp, by simp, by simp⟩

theorem completeLesson_ok {lf : Bool} {s s2 : State} {u c l : Nat}
    (h : completeLesson lf s u c l = .ok s2) :
    s2 = s ∨ ∃ course e, lookupCourse s.courses c = some course ∧
      l ∈ course.lessons ∧ findEntryUC s.ledger u c = some e ∧
      l ∉ e.completed ∧ e.status = .active ∧
      s2.courses = s.courses ∧ s2.payments = s.payments ∧
      s2.ledger = s.ledger.map (fun e2 =>
        if e2.id = e.id then completeUpdate course.lessons.length l e2
        else e2) := by
  unfold completeLesson at h
  split at h
  · simp at h
  · rename_i course hco
    split at h
    · rename_i hl
      split at h
      · simp at h
      · rename_i e he
        split at h
        · rename_i hdone
          simp only [Except.ok.injEq] at h
          exact Or.inl h.symm
        · rename_i hdone
          split at h
          · simp at h
          · rename_i hst
            rw [Decidable.not_not] at hst
            simp only [Except.ok.injEq] at h
            subst h
            exact Or.inr ⟨course, e, hco, hl, he, hdone, hst,
              by simp, by simp, by simp⟩
    · simp at h

theorem issueCertificate_ok {lf : Bool} {s s2 : State} {u c d : Nat}
    {cert : Certificate}
    (h : issueCertificate lf s u c d = .ok (cert, s2)) :
    cert = ⟨u, c, d⟩ ∧ stripAudit s2 = stripAudit s ∧
      s2.courses = s.courses ∧ s2.ledger = s.ledger ∧
      s2.payments = s.payments ∧
      ∃ e, findEntryUC s.ledger u c = some e ∧ e.status = .completed := by
  unfold issueCertificate at h
  split at h
  · simp at h
  · rename_i e he
    split at h
    · rename_i hst
      simp only [Except.ok.injEq, Prod.mk.injEq] at h
      obtain ⟨hcert, hs2⟩ := h
      subst hs2
      exact ⟨hcert.symm, by simp, by simp, by simp, by simp, e, he, hst⟩
    · simp at h

theorem run_of_ok {lf : Bool} {o : Op} {s s2 : State}
    (h : runE lf o s = .ok s2) : run lf o s = s2 := by
  unfold run; rw [h]

theorem run_of_error {lf : Bool} {o : Op} {s : State} {err : Err}
    (h : runE lf o s = .error err) : run lf o s = s := by
  unfold run; rw [h]

theorem inv_of_eq {s s2 : State} (hinv : Inv s) (hcs : s2.courses = s.courses)
    (hld : s2.ledger = s.ledger) : Inv s2 := by
  unfold Inv at hinv ⊢
  rw [hcs, hld]
  exact hinv

theorem inv_create {lf : Bool} {s : State} {u c : Nat} {s2 : State}
    {pid : Nat} (hinv : Inv s) (h : createEnrollment lf s u c = .ok (s2, pid)) :
    Inv s2 := by
  obtain ⟨course, hco, hcs, hld, _, _⟩ := createEnrollment_ok h
  obtain ⟨hwf, hlt, hnd⟩ := hinv
  unfold Inv
  rw [hcs, hld]
  refine ⟨?_, ?_, ?_⟩
  · intro e he2
    rcases List.mem_append.mp he2 with hm | hm
    · exact hwf e hm
    · simp only [List.mem_singleton] at hm
      subst hm
      rw [entryWF_iff]
      exact ⟨course, hco, by simp, by simp, by simp [pct]⟩
  · intro e he2
    rw [List.length_append, List.length_singleton]
    rcases List.mem_append.mp he2 with hm | hm
    · exact Nat.lt_succ_of_lt (hlt e hm)
    · simp only [List.mem_singleton] at hm
      subst hm
      exact Nat.lt_succ_self _
  · rw [List.map_append, List.map_singleton, List.nodup_append]
    refine ⟨hnd, List.nodup_singleton _, ?_⟩
    intro x hx hx2
    simp only [List.mem_singleton] at hx2
    subst hx2
    rcases List.mem_map.mp hx with ⟨e, he, hid⟩
    exact absurd (hid ▸ hlt e he) (lt_irrefl _)

theorem inv_activate {lf : Bool} {s s2 : State} {eid pid : Nat}
    (hinv : Inv s) (h : activateEnrollment lf s eid pid = .ok s2) :
    Inv s2 := by
  obtain ⟨e, p, _, _, _, _, hcs, hld, _⟩ := activateEnrollment_ok h
  obtain ⟨hwf, hlt, hnd⟩ := hinv
  unfold Inv
  rw [hcs, hld]
  refine ⟨?_, ?_, ?_⟩
  · intro e2 he2
    rcases List.mem_map.mp he2 with ⟨e3, he3, hfe⟩
    subst hfe
    by_cases hid : e3.id = eid
    · rw [if_pos hid]
      exact (entryWF_congr rfl rfl rfl).mpr (hwf e3 he3)
    · rw [if_neg hid]
      exact hwf e3 he3
  · intro e2 he2
    rw [List.length_map]
    rcases List.mem_map.mp he2 with ⟨e3, he3, hfe⟩
    subst hfe
    by_cases hid : e3.id = eid
    · rw [if_pos hid]
      exact hlt e3 he3
    · rw [if_neg hid]
      exact hlt e3 he3
  · rw [List.map_map]
    have hfun : (Entry.id ∘ fun e2 =>
        if e2.id = eid then { e2 with status := EStatus.active } else e2) =
        Entry.id := by
      funext e2
      by_cases hid : e2.id = eid <;> simp [hid]
    rw [hfun]
    exact hnd

theorem inv_complete {lf : Bool} {s s2 : State} {u c l : Nat}
    (hinv : Inv s) (h : completeLesson lf s u c l = .ok s2) : Inv s2 := by
  rcases completeLesson_ok h with rfl | hbig
  · exact hinv
  obtain ⟨course, e, hco, hl, he, hdone, _, hcs, _, hld⟩ := hbig
  obtain ⟨hem, _, hec⟩ := findEntryUC_mem he
  obtain ⟨hwf, hlt, hnd⟩ := hinv
  have hwfe := hwf e hem
  unfold Inv
  rw [hcs, hld]
  refine ⟨?_, ?_, ?_⟩
  · intro e2 he2
    rcases List.mem_map.mp he2 with ⟨e3, he3, hfe⟩
    subst hfe
    by_cases hid : e3.id = e.id
    · have heq : e3 = e := id_inj hnd he3 hem hid
      subst heq
      rw [if_pos rfl]
      rcases (entryWF_iff _ e3).mp hwfe with ⟨co, hcoe, hnde, hsube, _⟩
      rw [hec, hco] at hcoe
      injection hcoe with hcoe
      subst hcoe
      rw [entryWF_iff]
      refine ⟨course, ?_, ?_, ?_, rfl⟩
      · show lookupCourse s.courses e3.course = some course
        rw [hec]
        exact hco
      · show (e3.completed ++ [l]).Nodup
        rw [List.nodup_append]
        refine ⟨hnde, List.nodup_singleton _, ?_⟩
        intro x hx hx2
        simp only [List.mem_singleton] at hx2
        subst hx2
        exact hdone hx
      · intro x hx
        rcases List.mem_append.mp hx with hx | hx
        · exact hsube x hx
        · simp only [List.mem_singleton] at hx
          subst hx
          exact hl
    · rw [if_neg hid]
      exact hwf e3 he3
  · intro e2 he2
    rw [List.length_map]
    rcases List.mem_map.mp he2 with ⟨e3, he3, hfe⟩
    subst hfe
    by_cases hid : e3.id = e.id
    · rw [if_pos hid]
      exact hlt e3 he3
    · rw [if_neg hid]
      exact hlt e3 he3
  · rw [List.map_map]
    have hfun : (Entry.id ∘ fun e2 =>
        if e2.id = e.id then completeUpdate course.lessons.length l e2
        else e2) = Entry.id := by
      funext e2
      by_cases hid : e2.id = e.id <;> simp [hid, completeUpdate]
    rw [hfun]
    exact hnd

theorem invE {lf : Bool} {o : Op} {s s2 : State} (hinv : Inv s)
    (h : runE lf o s = .ok s2) : Inv s2 := by
  cases o with
  | create u c =>
      simp only [runE] at h
      cases hc : createEnrollment lf s u c with
      | error err => rw [hc] at h; simp [Except.map] at h
      | ok pr =>
          obtain ⟨s3, pid⟩ := pr
          rw [hc] at h
          simp only [Except.map, Except.ok.injEq] at h
          subst h
          exact inv_create hinv hc
  | verifyPay pid =>
      simp only [runE] at h
      obtain ⟨hcs, hld⟩ := verifyPayment_ok h
      exact inv_of_eq hinv hcs hld
  | activate eid pid =>
      simp only [runE] at h
      exact inv_activate hinv h
  | complete u c l =>
      simp only [runE] at h
      exact inv_complete hinv h
  | issueCert u c d =>
      simp only [runE] at h
      cases hc : issueCertificate lf s u c d with
      | error err => rw [hc] at h; simp [Except.map] at h
      | ok pr =>
          obtain ⟨cert, s3⟩ := pr
          rw [hc] at h
          simp only [Except.map, Except.ok.injEq] at h
          subst h
          obtain ⟨_, _, hcs, hld, _, _⟩ := issueCertificate_ok hc
          exact inv_of_eq hinv hcs hld

theorem inv_run (lf : Bool) (o : Op) (s : State) (hinv : Inv s) :
    Inv (run lf o s) := by
  unfold run
  split
  · rename_i s2 hre
    exact invE hinv hre
  · exact hinv

theorem exceptMapMap {α β γ ε : Type} (f : α → β) (g : β → γ)
    (x : Except ε α) : (x.map f).map g = x.map (fun a => g (f a)) := by
  cases x <;> rfl

theorem entry_self_bound {s : State} (hinv : Inv s) {e : Entry}
    (he : e ∈ s.ledger) :
    e.percentage ≤ 100 ∧ ∃ co, lookupCourse s.courses e.course = some co ∧
      e.percentage = pct e.completed.length co.lessons.length := by
  have hwf := hinv.1 e he
  rcases (entryWF_iff _ e).mp hwf with ⟨co, hco, _, _, hp⟩
  exact ⟨entryWF_pct_le_100 hwf, co, hco, hp⟩

theorem create_lf_strip (lf : Bool) (s : State) (u c : Nat) :
    (createEnrollment lf s u c).map (fun pr => (stripAudit pr.1, pr.2)) =
    (createEnrollment false s u c).map (fun pr => (stripAudit pr.1, pr.2)) := by
  unfold createEnrollment
  repeat' split
  all_goals simp [Except.map, insertPending]

theorem verify_lf_strip (lf : Bool) (s : State) (pid : Nat) :
    (verifyPayment lf s pid).map stripAudit =
    (verifyPayment false s pid).map stripAudit := by
  unfold verifyPayment
  repeat' split
  all_goals simp [Except.map]

theorem activate_lf_strip (lf : Bool) (s : State) (eid pid : Nat) :
    (activateEnrollment lf s eid pid).map stripAudit =
    (activateEnrollment false s eid pid).map stripAudit := by
  unfold activateEnrollment
  repeat' split
  all_goals simp [Except.map]

theorem complete_lf_strip (lf : Bool) (s : State) (u c l : Nat) :
    (completeLesson lf s u c l).map stripAudit =
    (completeLesson false s u c l).map stripAudit := by
  unfold completeLesson
  repeat' split
  all_goals simp [Except.map]

theorem issue_lf_strip (lf : Bool) (s : State) (u c d : Nat) :
    (issueCertificate lf s u c d).map (fun pr => (pr.1, stripAudit pr.2)) =
    (issueCertificate false s u c d).map (fun pr => (pr.1, stripAudit pr.2)) := by
  unfold issueCertificate
  repeat' split
  all_goals simp [Except.map]

/-- C2: activating an enrollment whose ledger entry is already active is
rejected with an error, and neither the payment records nor the ledger
change — no second Payment record is created and no payment is finalized a
second time. -/
theorem activate_already_active_rejected (lf : Bool) (s : State)
    (eid pid : Nat) (e : Entry) (he : findEntry s.ledger eid = some e)
    (hact : e.status = EStatus.active) :
    (∃ err, activateEnrollment lf s eid pid = .error err) ∧
    (run lf (Op.activate eid pid) s).payments = s.payments ∧
    (run lf (Op.activate eid pid) s).ledger = s.ledger := by
  have hne : e.status ≠ EStatus.pending := by rw [hact]; decide
  have herr : ∃ err, activateEnrollment lf s eid pid = .error err := by
    cases hp : findPayment s.payments pid with
    | none =>
        refine ⟨Err.notFound, ?_⟩
        simp only [activateEnrollment, he, hp]
    | some p =>
        refine ⟨Err.invalidState, ?_⟩
        simp only [activateEnrollment, he, hp]
        rw [if_pos hne]
  obtain ⟨err, herr2⟩ := herr
  have hrun : run lf (Op.activate eid pid) s = s :=
    run_of_error (show runE lf (Op.activate eid pid) s = .error err from herr2)
  exact ⟨⟨err, herr2⟩, by rw [hrun], by rw [hrun]⟩

/-- C3: `completeLesson` is idempotent on the completed-lesson set — for a
lesson already marked complete for the user's enrollment, a second call
returns the state unchanged, so the completed-lesson count and the
completion percentage are unchanged. -/
theorem completeLesson_idempotent (lf : Bool) (s : State) (u c l : Nat)
    (course : Course) (e : Entry)
    (hco : lookupCourse s.courses c = some course) (hl : l ∈ course.lessons)
    (he : findEntryUC s.ledger u c = some e) (hdone : l ∈ e.completed) :
    completeLesson lf s u c l = .ok s ∧ run lf (Op.complete u c l) s = s := by
  have hok : completeLesson lf s u c l = .ok s := by
    simp only [completeLesson, hco, he]
    rw [if_pos hl, if_pos hdone]
  exact ⟨hok, run_of_ok (show runE lf (Op.complete u c l) s = .ok s from hok)⟩

/-- C5: `createEnrollment` fails with `notFound` when the course is
unknown, fails with `invalidState` when the user already has an active
enrollment for the course, and otherwise inserts exactly one pending ledger
entry (no other ledger write), records one pending Payment priced from the
course record, and returns the payment handle. -/
theorem createEnrollment_spec (lf : Bool) (s : State) (u c : Nat) :
    (lookupCourse s.courses c = none →
      createEnrollment lf s u c = .error .notFound) ∧
    (∀ course e, lookupCourse s.courses c = some course →
      findEntryUC s.ledger u c = some e → e.status = .active →
      createEnrollment lf s u c = .error .invalidState) ∧
    (∀ course, lookupCourse s.courses c = some course →
      (∀ e, findEntryUC s.ledger u c = some e → e.status ≠ .active) →
      ∃ s2, createEnrollment lf s u c = .ok (s2, s.payments.length) ∧
        s2.courses = s.courses ∧
        s2.ledger = s.ledger ++ [⟨s.ledger.length, u, c, .pending, [], 0⟩] ∧
        s2.payments = s.payments ++
          [⟨s.payments.length, u, c, course.price, .pending⟩]) := by
  refine ⟨?_, ?_, ?_⟩
  · intro h
    simp only [createEnrollment, h]
  · intro course e hco he ha
    simp only [createEnrollment, hco, he]
    rw [if_pos ha]
  · intro course hco hfresh
    cases hfe : findEntryUC s.ledger u c with
    | none =>
        refine ⟨(insertPending lf s u c course).1, ?_,
          by simp [insertPending], by simp [insertPending],
          by simp [insertPending]⟩
        simp only [createEnrollment, hco, hfe]
        rfl
    | some e =>
        refine ⟨(insertPending lf s u c course).1, ?_,
          by simp [insertPending], by simp [insertPending],
          by simp [insertPending]⟩
        simp only [createEnrollment, hco, hfe]
        rw [if_neg (hfresh e hfe)]
        rfl

/-- C6: requesting a certificate for an enrollment that is not in the
completed state is rejected with `invalidState` and leaves the state
unchanged — no certificate is produced. -/
theorem issueCertificate_incomplete_rejected (lf : Bool) (s : State)
    (u c d : Nat) (e : Entry) (he : findEntryUC s.ledger u c = some e)
    (hnc : e.status ≠ .completed) :
    issueCertificate lf s u c d = .error .invalidState ∧
    run lf (Op.issueCert u c d) s = s := by
  have herr : issueCertificate lf s u c d = .error .invalidState := by
    simp only [issueCertificate, he]
    rw [if_neg hnc]
  refine ⟨herr, run_of_error (show runE lf (Op.issueCert u c d) s =
    Except.error Err.invalidState from ?_)⟩
  simp only [runE, herr, Except.map]

/-- C7: certificate issuance is deterministic — two calls with the same
user, course and completion date on completed enrollments (in any two
states, in particular before and after a first issuance) return the same
artifact, derived from (user, course, date) only, and a call changes
nothing in the state beyond the audit side channel. -/
theorem issueCertificate_deterministic (lf1 lf2 : Bool) (s1 s2 : State)
    (u c d : Nat) (e1 e2 : Entry)
    (h1 : findEntryUC s1.ledger u c = some e1) (hc1 : e1.status = .completed)
    (h2 : findEntryUC s2.ledger u c = some e2) (hc2 : e2.status = .completed) :
    (issueCertificate lf1 s1 u c d).map Prod.fst = .ok ⟨u, c, d⟩ ∧
    (issueCertificate lf1 s1 u c d).map Prod.fst =
      (issueCertificate lf2 s2 u c d).map Prod.fst ∧
    ∀ cert s3, issueCertificate lf1 s1 u c d = .ok (cert, s3) →
      stripAudit s3 = stripAudit s1 := by
  have hv1 : issueCertificate lf1 s1 u c d =
      .ok (⟨u, c, d⟩, tryLog lf1 5 s1) := by
    simp only [issueCertificate, h1]
    rw [if_pos hc1]
  have hv2 : issueCertificate lf2 s2 u c d =
      .ok (⟨u, c, d⟩, tryLog lf2 5 s2) := by
    simp only [issueCertificate, h2]
    rw [if_pos hc2]
  refine ⟨by rw [hv1]; rfl, by rw [hv1, hv2]; rfl, ?_⟩
  intro cert s3 hok
  rw [hv1] at hok
  simp only [Except.ok.injEq, Prod.mk.injEq] at hok
  rw [← hok.2]
  simp

/-- C1: under the ledger invariant, a `completeLesson` call preserves the
invariant, and for every enrollment ledger entry the stored completion
percentage never decreases, never exceeds 100, and always equals the derived
value completed-lesson count / total lessons of its course. -/
theorem completion_percentage_invariant (lf : Bool) (u c l : Nat) (s : State)
    (hinv : Inv s) :
    Inv (run lf (Op.complete u c l) s) ∧
    ∀ e ∈ s.ledger, ∃ e2, e2 ∈ (run lf (Op.complete u c l) s).ledger ∧
      e2.id = e.id ∧ e.percentage ≤ e2.percentage ∧ e2.percentage ≤ 100 ∧
      ∃ co, lookupCourse s.courses e2.course = some co ∧
        e2.percentage = pct e2.completed.length co.lessons.length := by
  refine ⟨inv_run lf _ s hinv, ?_⟩
  intro e he
  cases hre : runE lf (Op.complete u c l) s with
  | error err =>
      rw [run_of_error hre]
      obtain ⟨hle, co, hco, hp⟩ := entry_self_bound hinv he
      exact ⟨e, he, rfl, le_refl _, hle, co, hco, hp⟩
  | ok s2 =>
      rw [run_of_ok hre]
      have hinv2 : Inv s2 := invE hinv hre
      simp only [runE] at hre
      rcases completeLesson_ok hre with heq | hbig
      · subst heq
        obtain ⟨hle, co, hco, hp⟩ := entry_self_bound hinv he
        exact ⟨e, he, rfl, le_refl _, hle, co, hco, hp⟩
      · obtain ⟨course, ef, hco, hl, hfe, hdone, hst, hcs, hpay, hld⟩ := hbig
        by_cases hid : e.id = ef.id
        · have heq : e = ef := id_inj hinv.2.2 he (findEntryUC_mem hfe).1 hid
          have hmem2 : completeUpdate course.lessons.length l e ∈ s2.ledger := by
            rw [hld]
            exact List.mem_map.mpr ⟨e, he, if_pos hid⟩
          refine ⟨completeUpdate course.lessons.length l e, hmem2, rfl, ?_,
            entryWF_pct_le_100 (hinv2.1 _ hmem2), ?_⟩
          · obtain ⟨_, co, hcoe, hp⟩ := entry_self_bound hinv he
            have hec : e.course = c := by
              rw [heq]
              exact (findEntryUC_mem hfe).2.2
            rw [hec, hco] at hcoe
            injection hcoe with hcoe
            rw [hp, ← hcoe]
            show pct e.completed.length course.lessons.length ≤
              pct (e.completed ++ [l]).length course.lessons.length
            exact pct_mono _ (by simp)
          · obtain ⟨_, co, hco2, hp2⟩ := entry_self_bound hinv2 hmem2
            rw [hcs] at hco2
            exact ⟨co, hco2, hp2⟩
        · have hmem2 : e ∈ s2.ledger := by
            rw [hld]
            exact List.mem_map.mpr ⟨e, he, if_neg hid⟩
          obtain ⟨hle, co, hco2, hp2⟩ := entry_self_bound hinv he
          exact ⟨e, hmem2, rfl, le_refl _, hle, co, hco2, hp2⟩

/-- C4: whatever primary operation runs, every ledger entry survives with
its identity (user, course, id) intact — no operation deletes a ledger
entry — and its status either stays put, moves pending → active (payment
confirmation) or moves active → completed (all lessons complete); in
particular no operation ever moves an entry backward or re-enters pending. -/
theorem enrollment_state_machine (lf : Bool) (o : Op) (s : State)
    (hinv : Inv s) :
    ∀ e ∈ s.ledger, ∃ e2, e2 ∈ (run lf o s).ledger ∧ e2.id = e.id ∧
      e2.user = e.user ∧ e2.course = e.course ∧
      StatusStep e.status e2.status := by
  intro e he
  cases hre : runE lf o s with
  | error err =>
      rw [run_of_error hre]
      exact ⟨e, he, rfl, rfl, rfl, Or.inl rfl⟩
  | ok s2 =>
      rw [run_of_ok hre]
      cases o with
      | create u c =>
          simp only [runE] at hre
          cases hc : createEnrollment lf s u c with
          | error err => rw [hc] at hre; simp [Except.map] at hre
          | ok pr =>
              obtain ⟨s3, pid⟩ := pr
              rw [hc] at hre
              simp only [Except.map, Except.ok.injEq] at hre
              subst hre
              obtain ⟨course, _, _, hld, _, _⟩ := createEnrollment_ok hc
              refine ⟨e, ?_, rfl, rfl, rfl, Or.inl rfl⟩
              rw [hld]
              exact List.mem_append_left _ he
      | verifyPay pid =>
          simp only [runE] at hre
          obtain ⟨_, hld⟩ := verifyPayment_ok hre
          exact ⟨e, by rw [hld]; exact he, rfl, rfl, rfl, Or.inl rfl⟩
      | activate eid pid =>
          simp only [runE] at hre
          obtain ⟨ef, p, hfe, hp, hpend, hver, _, hld, _⟩ :=
            activateEnrollment_ok hre
          by_cases hid : e.id = eid
          · have heq : e = ef := id_inj hinv.2.2 he (findEntry_mem hfe).1
              (by rw [hid, (findEntry_mem hfe).2])
            refine ⟨{ e with status := .active }, ?_, rfl, rfl, rfl, ?_⟩
            · rw [hld]
              exact List.mem_map.mpr ⟨e, he, if_pos hid⟩
            · right
              left
              exact ⟨by rw [heq]; exact hpend, rfl⟩
          · refine ⟨e, ?_, rfl, rfl, rfl, Or.inl rfl⟩
            rw [hld]
            exact List.mem_map.mpr ⟨e, he, if_neg hid⟩
      | complete u c l =>
          simp only [runE] at hre
          rcases completeLesson_ok hre with heq | hbig
          · subst heq
            exact ⟨e, he, rfl, rfl, rfl, Or.inl rfl⟩
          · obtain ⟨course, ef, hco, hl, hfe, hdone, hst, hcs, hpay, hld⟩ :=
              hbig
            by_cases hid : e.id = ef.id
            · have heq : e = ef := id_inj hinv.2.2 he (findEntryUC_mem hfe).1 hid
              have hea : e.status = .active := by rw [heq]; exact hst
              refine ⟨completeUpdate course.lessons.length l e, ?_, rfl, rfl,
                rfl, ?_⟩
              · rw [hld]
                exact List.mem_map.mpr ⟨e, he, if_pos hid⟩
              · show StatusStep e.status
                  (if pct (e.completed ++ [l]).length course.lessons.length =
                    100 then .completed else e.status)
                by_cases h100 :
                    pct (e.completed ++ [l]).length course.lessons.length = 100
                · rw [if_pos h100]
                  right
                  right
                  exact ⟨hea, rfl⟩
                · rw [if_neg h100]
                  left
                  rfl
            · refine ⟨e, ?_, rfl, rfl, rfl, Or.inl rfl⟩
              rw [hld]
              exact List.mem_map.mpr ⟨e, he, if_neg hid⟩
      | issueCert u c d =>
          simp only [runE] at hre
          cases hc : issueCertificate lf s u c d with
          | error err => rw [hc] at hre; simp [Except.map] at hre
          | ok pr =>
              obtain ⟨cert, s3⟩ := pr
              rw [hc] at hre
              simp only [Except.map, Except.ok.injEq] at hre
              subst hre
              obtain ⟨_, _, _, hld, _, _⟩ := issueCertificate_ok hc
              exact ⟨e, by rw [hld]; exact he, rfl, rfl, rfl, Or.inl rfl⟩

/-- C9: a failure of the audit-logging side channel is swallowed by every
primary operation — the operation's outcome (error or success, the core
state with the audit channel erased, the returned payment handle and the
returned certificate) is identical whether the side channel fails or not,
and the failure is never surfaced to the caller. -/
theorem logging_failures_never_surface (lf : Bool) (o : Op) (s : State) :
    (runE lf o s).map stripAudit = (runE false o s).map stripAudit ∧
    (∀ u c, (createEnrollment lf s u c).map Prod.snd =
      (createEnrollment false s u c).map Prod.snd) ∧
    (∀ u c d, (issueCertificate lf s u c d).map Prod.fst =
      (issueCertificate false s u c d).map Prod.fst) := by
  refine ⟨?_, ?_, ?_⟩
  · cases o with
    | create u c =>
        simp only [runE]
        rw [exceptMapMap, exceptMapMap]
        have h2 := congrArg (Except.map Prod.fst) (create_lf_strip lf s u c)
        rw [exceptMapMap, exceptMapMap] at h2
        exact h2
    | verifyPay pid =>
        simpa only [runE] using verify_lf_strip lf s pid
    | activate eid pid =>
        simpa only [runE] using activate_lf_strip lf s eid pid
    | complete u c l =>
        simpa only [runE] using complete_lf_strip lf s u c l
    | issueCert u c d =>
        simp only [runE]
        rw [exceptMapMap, exceptMapMap]
        have h2 := congrArg (Except.map Prod.snd) (issue_lf_strip lf s u c d)
        rw [exceptMapMap, exceptMapMap] at h2
        exact h2
  · intro u c
    have h2 := congrArg (Except.map Prod.snd) (create_lf_strip lf s u c)
    rw [exceptMapMap, exceptMapMap] at h2
    exact h2
  · intro u c d
    have h2 := congrArg (Except.map Prod.fst) (issue_lf_strip lf s u c d)
    rw [exceptMapMap, exceptMapMap] at h2
    exact h2

/-- C8: the spec scenario — a course with four lessons; the enrollment is
pending after creation, active with completion 0 after payment activation;
completing lessons 1, 2, 3 yields completion percentage 75; completing
lesson 4 yields 100, flips the entry to completed, and the certificate
becomes available. -/
theorem four_lesson_scenario :
    (findEntryUC (replay [Op.create 7 1] demoState).ledger 7 1).map
      Entry.status = some .pending ∧
    (findEntryUC demoActive.ledger 7 1).map
      (fun e => (e.status, e.percentage)) = some (.active, 0) ∧
    (findEntryUC demo75.ledger 7 1).map Entry.percentage = some 75 ∧
    (findEntryUC demo100.ledger 7 1).map Entry.percentage = some 100 ∧
    (findEntryUC demo100.ledger 7 1).map Entry.status = some .completed ∧
    (issueCertificate false demo100 7 1 9).map Prod.fst =
      .ok ⟨7, 1, 9⟩ :=
  ⟨rfl, rfl, rfl, rfl, rfl, rfl⟩

/-- C10: in the frontend API client, `API_BASE` equals the
`VITE_API_BASE_URL` environment value when that value is truthy (a
nonempty string) and the empty string otherwise, and the exported axios
instance carries the `Content-Type: application/json` header and
`withCredentials: true` on every request it issues. -/
theorem api_client_config (env : Option String) :
    (∀ v, env = some v → v ≠ "" → ApiClient.API_BASE env = v) ∧
    ((env = none ∨ env = some "") → ApiClient.API_BASE env = "") ∧
    (ApiClient.api env).contentTypeHeader = "application/json" ∧
    (ApiClient.api env).withCredentials = true := by
  refine ⟨?_, ?_, rfl, rfl⟩
  · rintro v rfl hne
    show (if v = "" then "" else v) = v
    rw [if_neg hne]
  · rintro (rfl | rfl) <;> rfl

/-- Witness for C1 at the concrete 75%-complete scenario state. -/
theorem completion_percentage_invariant_witness :
    Inv demo75 ∧
    (Inv (run false (Op.complete 7 1 4) demo75) ∧
      ∀ e ∈ demo75.ledger, ∃ e2,
        e2 ∈ (run false (Op.complete 7 1 4) demo75).ledger ∧
        e2.id = e.id ∧ e.percentage ≤ e2.percentage ∧ e2.percentage ≤ 100 ∧
        ∃ co, lookupCourse demo75.courses e2.course = some co ∧
          e2.percentage = pct e2.completed.length co.lessons.length) :=
  ⟨by decide, completion_percentage_invariant false 7 1 4 demo75 (by decide)⟩

/-- Witness for C2 at the concrete activated scenario state. -/
theorem activate_already_active_rejected_witness :
    (findEntry demoActive.ledger 0 = some ⟨0, 7, 1, .active, [], 0⟩ ∧
      (⟨0, 7, 1, .active, [], 0⟩ : Entry).status = EStatus.active) ∧
    ((∃ err, activateEnrollment false demoActive 0 0 = .error err) ∧
      (run false (Op.activate 0 0) demoActive).payments =
        demoActive.payments ∧
      (run false (Op.activate 0 0) demoActive).ledger =
        demoActive.ledger) :=
  ⟨⟨by decide, by decide⟩,
    activate_already_active_rejected false demoActive 0 0
      ⟨0, 7, 1, .active, [], 0⟩ (by decide) (by decide)⟩

/-- Witness for C3: re-completing lesson 2 at the 75%-complete state. -/
theorem completeLesson_idempotent_witness :
    (lookupCourse demo75.courses 1 = some ⟨[1, 2, 3, 4], 500⟩ ∧
      2 ∈ (⟨[1, 2, 3, 4], 500⟩ : Course).lessons ∧
      findEntryUC demo75.ledger 7 1 = some ⟨0, 7, 1, .active, [1, 2, 3], 75⟩ ∧
      2 ∈ (⟨0, 7, 1, .active, [1, 2, 3], 75⟩ : Entry).completed) ∧
    (completeLesson false demo75 7 1 2 = .ok demo75 ∧
      run false (Op.complete 7 1 2) demo75 = demo75) :=
  ⟨⟨by decide, by decide, by decide, by decide⟩,
    completeLesson_idempotent false demo75 7 1 2 ⟨[1, 2, 3, 4], 500⟩
      ⟨0, 7, 1, .active, [1, 2, 3], 75⟩ (by decide) (by decide) (by decide)
      (by decide)⟩

/-- Witness for C4: completing the last lesson at the 75%-complete state. -/
theorem enrollment_state_machine_witness :
    Inv demo75 ∧
    ∀ e ∈ demo75.ledger, ∃ e2,
      e2 ∈ (run false (Op.complete 7 1 4) demo75).ledger ∧ e2.id = e.id ∧
      e2.user = e.user ∧ e2.course = e.course ∧
      StatusStep e.status e2.status :=
  ⟨by decide, enrollment_state_machine false (Op.complete 7 1 4) demo75
    (by decide)⟩

/-- Witness for C5: enrolling user 7 in course 1 on the demo catalog. -/
theorem createEnrollment_spec_witness :
    ∃ s2, createEnrollment false demoState 7 1 = .ok (s2, 0) ∧
      s2.courses = demoState.courses ∧
      s2.ledger = demoState.ledger ++ [⟨0, 7, 1, .pending, [], 0⟩] ∧
      s2.payments = demoState.payments ++ [⟨0, 7, 1, 500, .pending⟩] :=
  (createEnrollment_spec false demoState 7 1).2.2 ⟨[1, 2, 3, 4], 500⟩
    (by decide) (fun e h => by simp [demoState, findEntryUC] at h)

/-- Witness for C6: requesting a certificate at the active, 0% state. -/
theorem issueCertificate_incomplete_rejected_witness :
    (findEntryUC demoActive.ledger 7 1 = some ⟨0, 7, 1, .active, [], 0⟩ ∧
      (⟨0, 7, 1, .active, [], 0⟩ : Entry).status ≠ EStatus.completed) ∧
    (issueCertificate false demoActive 7 1 9 = .error .invalidState ∧
      run false (Op.issueCert 7 1 9) demoActive = demoActive) :=
  ⟨⟨by decide, by decide⟩,
    issueCertificate_incomplete_rejected false demoActive 7 1 9
      ⟨0, 7, 1, .active, [], 0⟩ (by decide) (by decide)⟩

/-- Witness for C7: two issuance calls at the completed scenario state. -/
theorem issueCertificate_deterministic_witness :
    (findEntryUC demo100.ledger 7 1 =
        some ⟨0, 7, 1, .completed, [1, 2, 3, 4], 100⟩ ∧
      (⟨0, 7, 1, .completed, [1, 2, 3, 4], 100⟩ : Entry).status =
        EStatus.completed) ∧
    ((issueCertificate true demo100 7 1 9).map Prod.fst = .ok ⟨7, 1, 9⟩ ∧
      (issueCertificate true demo100 7 1 9).map Prod.fst =
        (issueCertificate false demo100 7 1 9).map Prod.fst ∧
      ∀ cert s3, issueCertificate true demo100 7 1 9 = .ok (cert, s3) →
        stripAudit s3 = stripAudit demo100) :=
  ⟨⟨by decide, by decide⟩,
    issueCertificate_deterministic true false demo100 demo100 7 1 9
      ⟨0, 7, 1, .completed, [1, 2, 3, 4], 100⟩
      ⟨0, 7, 1, .completed, [1, 2, 3, 4], 100⟩ (by decide) (by decide)
      (by decide) (by decide)⟩

/-- Witness for C10 at a concrete base URL. -/
theorem api_client_config_witness :
    ApiClient.API_BASE (some "http://x") = "http://x" ∧
    (ApiClient.api (some "http://x")).withCredentials = true :=
  ⟨(api_client_config (some "http://x")).1 "http://x" rfl (by decide),
    (api_client_config (some "http://x")).2.2.2⟩

end LearningSys
